import Mathlib

/-!
# Verification of `pm/jira_sync.py`

A shallow embedding of the Jira synchronisation script: CSV loading via
`csv.DictReader`, the per-record skip/create reconciliation loops
(`sync_epics_to_jira`, `sync_backlog_to_jira`), and CSV write-back via
`csv.DictWriter` (`update_csv_data`).

File contents are modelled as `List Char` (UTF-8 text).  Python dictionaries
produced by `csv.DictReader` are modelled as insertion-ordered association
lists whose keys are `Option (List Char)` (the `None` key appears for
`restkey` overflow) and whose values are `PVal` (a Python `str`, `None`, or a
list of `str`).  The file-system is an association list from path to content.
Python exceptions are the `PyErr` type.  The CSV parser and serializer model
the behaviour of Python's `csv` module for sources that contain no quote
characters (all sources considered here are of that form); the serializer
includes the module's minimal quoting on output.
-/

deriving instance DecidableEq for Except

/-- Convert a string literal to the character-list representation used for
file contents and field values. -/
def chars (s : String) : List Char := s.toList

/-- A Python value as it can occur in a `csv.DictReader` row dictionary:
a `str`, `None` (the reader's `restval`), or a list of `str`
(the overflow stored under the `restkey`). -/
inductive PVal where
  | s : List Char → PVal
  | none : PVal
  | lst : List (List Char) → PVal
deriving DecidableEq, Repr

/-- A dictionary key: `some name` for a string key, `none` for Python `None`
(the `DictReader` default `restkey`). -/
abbrev PKey := Option (List Char)

/-- A Python dict as produced by `csv.DictReader`: an insertion-ordered
association list.  (A genuine dict never holds duplicate keys; operations
below mirror dict semantics on such lists.) -/
abbrev Record := List (PKey × PVal)

/-- Python exceptions that the script can raise. -/
inductive PyErr where
  | fileNotFoundError : PyErr
  | keyError : PyErr
  | attributeError : PyErr
  | typeError : PyErr
  | indexError : PyErr
  | valueError : PyErr
deriving DecidableEq, Repr

/-- First-binding lookup in an association list. -/
def assocGet {α β : Type} [DecidableEq α] : List (α × β) → α → Option β
  | [], _ => Option.none
  | (k₀, v) :: rest, k => if k₀ = k then some v else assocGet rest k

/-- Keyed store into an association list: replace the binding in place when
the key is bound, append otherwise (Python dict update semantics — a dict
never holds a key twice). -/
def assocSet {α β : Type} [DecidableEq α] : List (α × β) → α → β → List (α × β)
  | [], k, v => [(k, v)]
  | (k₀, v₀) :: rest, k, v =>
    if k₀ = k then (k, v) :: rest else (k₀, v₀) :: assocSet rest k v

/-- `d[k]`-style lookup returning the first binding (dicts have at most one). -/
def dictGet (d : Record) (k : PKey) : Option PVal := assocGet d k

/-- `d[k] = v`: update in place when the key exists (dicts keep insertion
order on update), append otherwise. -/
def dictInsert (d : Record) (k : PKey) (v : PVal) : Record := assocSet d k v

/-- `list(d.keys())`. -/
def dictKeys (d : Record) : List PKey := d.map (fun kv => kv.1)

/-- Python truthiness of `d.get(k)`: `None` (key absent or value `None`) and
empty strings/lists are falsy. -/
def pyTruthy : Option PVal → Bool
  | some (.s (_ :: _)) => true
  | some (.lst (_ :: _)) => true
  | _ => false

/-- `str.replace(old, new)` for a single-character pattern, replacing every
occurrence (the only form the script uses). -/
def replaceChar (c : Char) (repl : List Char) : List Char → List Char
  | [] => []
  | x :: xs => if x = c then repl ++ replaceChar c repl xs else x :: replaceChar c repl xs

/-- How an f-string renders a `PVal` (`str` verbatim, `None` as "None",
a list via `repr`). -/
def pvalFormat : PVal → List Char
  | .s s => s
  | .none => chars "None"
  | .lst l =>
    [Char.ofNat 91]
      ++ List.intercalate (chars ", ")
          (l.map (fun s => Char.ofNat 39 :: (s ++ [Char.ofNat 39])))
      ++ [Char.ofNat 93]

/-- Per-record result of one reconciliation attempt, as reported by the
script's log lines: skip (with the existing id as printed) or creation
(with the new simulated key).  The simulated client cannot fail, so the
script has no failure outcome. -/
inductive Outcome where
  | skipped : List Char → Outcome
  | created : List Char → Outcome
deriving DecidableEq, Repr

instance : DecidableEq (Record × Outcome × Bool) := inferInstance

/-- The `JiraTicketID` key. -/
def kJira : PKey := some (chars "JiraTicketID")

/-- The `Title` key. -/
def kTitle : PKey := some (chars "Title")

/-- The `EpicID` key. -/
def kEpicID : PKey := some (chars "EpicID")

/-- The `SubtaskDescription` key. -/
def kSubDesc : PKey := some (chars "SubtaskDescription")

/-- The `SubtaskID` key. -/
def kSubID : PKey := some (chars "SubtaskID")

/-- Body of the `for epic in epics_data` loop of `sync_epics_to_jira`:
if `epic.get("JiraTicketID")` is truthy, print the skip line (which reads
`epic['Title']`, raising `KeyError` when absent) and leave the record
untouched; otherwise print the found line (same `Title` access), fabricate
`new_jira_key = f"FER-{epic['EpicID'].replace('E', '10')}"` (a `KeyError`
when `EpicID` is absent, an `AttributeError` when it is not a `str`) and
stamp it into the record.  The returned `Bool` records whether the
(simulated) remote ticket creation was reached. -/
def epicStep (epic : Record) : Except PyErr (Record × Outcome × Bool) :=
  if pyTruthy (dictGet epic kJira) then
    match dictGet epic kTitle with
    | Option.none => .error .keyError
    | some _ =>
      .ok (epic, .skipped (pvalFormat ((dictGet epic kJira).getD .none)), false)
  else
    match dictGet epic kTitle with
    | Option.none => .error .keyError
    | some _ =>
      match dictGet epic kEpicID with
      | Option.none => .error .keyError
      | some (.s s) =>
        let key := chars "FER-" ++ replaceChar 'E' (chars "10") s
        .ok (dictInsert epic kJira (.s key), .created key, true)
      | some _ => .error .attributeError

/-- Body of the `for item in backlog_data` loop of `sync_backlog_to_jira`:
both branches print `item['SubtaskDescription'][:40]` (a `KeyError` when the
key is absent, a `TypeError` when its value is `None` — slicing `None`);
the create branch fabricates
`f"FER-{item['SubtaskID'].replace('T', '').replace('.', '0')}"`. -/
def backlogStep (item : Record) : Except PyErr (Record × Outcome × Bool) :=
  if pyTruthy (dictGet item kJira) then
    match dictGet item kSubDesc with
    | Option.none => .error .keyError
    | some .none => .error .typeError
    | some _ =>
      .ok (item, .skipped (pvalFormat ((dictGet item kJira).getD .none)), false)
  else
    match dictGet item kSubDesc with
    | Option.none => .error .keyError
    | some .none => .error .typeError
    | some _ =>
      match dictGet item kSubID with
      | Option.none => .error .keyError
      | some (.s s) =>
        let key :=
          chars "FER-" ++ replaceChar '.' (chars "0") (replaceChar 'T' [] s)
        .ok (dictInsert item kJira (.s key), .created key, true)
      | some _ => .error .attributeError

/-- Run a per-record step over a whole collection in order, stopping at the
first exception (a raised exception propagates out of the `for` loop). -/
def syncLoop (step : Record → Except PyErr (Record × Outcome × Bool)) :
    List Record → Except PyErr (List (Record × Outcome × Bool))
  | [] => .ok []
  | r :: rs =>
    match step r with
    | .error e => .error e
    | .ok x =>
      match syncLoop step rs with
      | .error e => .error e
      | .ok xs => .ok (x :: xs)

/-- The reconciliation loop of `sync_epics_to_jira` over the loaded records. -/
def epicsLoop : List Record → Except PyErr (List (Record × Outcome × Bool)) :=
  syncLoop epicStep

/-- The reconciliation loop of `sync_backlog_to_jira` over the loaded records. -/
def backlogLoop : List Record → Except PyErr (List (Record × Outcome × Bool)) :=
  syncLoop backlogStep

/-! ## The CSV reader (`csv.DictReader` over a text-mode file) -/

/-- Split text into lines the way Python's text mode plus line iteration does:
a line ends at `\n`, `\r\n`, or a lone `\r` (universal newlines); a final
fragment without a terminator still counts as a line; empty input has no
lines.  `acc` holds the current line read so far, reversed. -/
def pySplitLinesAux : List Char → List Char → List (List Char)
  | [], acc => if acc.isEmpty then [] else [acc.reverse]
  | '\n' :: rest, acc => acc.reverse :: pySplitLinesAux rest []
  | '\r' :: '\n' :: rest, acc => acc.reverse :: pySplitLinesAux rest []
  | '\r' :: rest, acc => acc.reverse :: pySplitLinesAux rest []
  | c :: rest, acc => pySplitLinesAux rest (c :: acc)

/-- The lines of a text file, Python style. -/
def pySplitLines (cs : List Char) : List (List Char) := pySplitLinesAux cs []

/-- Split one line at every comma (`csv.reader` on an unquoted line);
`acc` holds the current cell, reversed. -/
def splitCommaAux : List Char → List Char → List (List Char)
  | [], acc => [acc.reverse]
  | c :: rest, acc =>
    if c = ',' then acc.reverse :: splitCommaAux rest []
    else splitCommaAux rest (c :: acc)

/-- The cells of one CSV line. -/
def splitComma (cs : List Char) : List (List Char) := splitCommaAux cs []

/-- `csv.reader` yields `[]` for a blank line and the comma-split cells
otherwise. -/
def rawRow (line : List Char) : List (List Char) :=
  if line.isEmpty then [] else splitComma line

/-- `DictReader.__next__`'s row dictionary: `dict(zip(fieldnames, row))`,
then the overflow cells under the `restkey` (`None`) when the row is longer
than the header, or each missing fieldname bound to the `restval` (`None`)
when it is shorter. -/
def rowToRecord (fns : List (List Char)) (row : List (List Char)) : Record :=
  let d := (List.zip fns row).foldl
    (fun d p => dictInsert d (some p.1) (.s p.2)) []
  if fns.length < row.length then
    dictInsert d Option.none (.lst (row.drop fns.length))
  else if row.length < fns.length then
    (fns.drop row.length).foldl (fun d k => dictInsert d (some k) PVal.none) d
  else d

/-- `list(csv.DictReader(f))` on a file's text: the first raw row (even a
blank one) is the header; every later non-blank row becomes a record; an
empty file yields no records. -/
def parseCsv (content : List Char) : List Record :=
  match (pySplitLines content).map rawRow with
  | [] => []
  | header :: rest => (rest.filter (fun r => ¬ r.isEmpty)).map (rowToRecord header)

/-- The modelled file system: an association list from path to file text. -/
abbrev FS := List (List Char × List Char)

/-- The content at a path, when the file exists. -/
def lookupFS (fs : FS) (path : List Char) : Option (List Char) := assocGet fs path

/-- Store content at a path (replace in place, create otherwise). -/
def setFS (fs : FS) (path content : List Char) : FS := assocSet fs path content

/-- `read_csv_data(file_path)` — `open` raises `FileNotFoundError` for a
missing path; otherwise the records of `csv.DictReader`. -/
def read_csv_data (fs : FS) (file_path : List Char) : Except PyErr (List Record) :=
  match lookupFS fs file_path with
  | Option.none => .error .fileNotFoundError
  | some content => .ok (parseCsv content)

/-! ## The CSV writer (`csv.DictWriter` in `update_csv_data`) -/

/-- The double-quote character. -/
def quoteChar : Char := Char.ofNat 34

/-- A cell needing quoting under `QUOTE_MINIMAL`: it contains the delimiter,
the quote character, or a line-terminator character. -/
def needsQuote (cell : List Char) : Bool :=
  cell.any (fun c => c = ',' ∨ c = quoteChar ∨ c = '\r' ∨ c = '\n')

/-- `QUOTE_MINIMAL` serialization of one cell: wrap in quotes (doubling any
embedded quote) only when needed. -/
def quoteCell (cell : List Char) : List Char :=
  if needsQuote cell then
    quoteChar ::
      (cell.foldr (fun c acc => if c = quoteChar then c :: c :: acc else c :: acc)
        [quoteChar])
  else cell

/-- How `csv.writer` renders a dictionary value as a cell: a `str` verbatim,
`None` as the empty string, anything else via `str(...)`. -/
def pvalCell : PVal → List Char
  | .s s => s
  | .none => []
  | .lst l => pvalFormat (.lst l)

/-- A fieldname rendered as a header cell (`None` is written as the empty
string, like any `None` value). -/
def keyCell : PKey → List Char
  | some s => s
  | Option.none => []

/-- The writer's line terminator (the `csv` module default `\r\n`). -/
def crlf : List Char := ['\r', '\n']

/-- Join cells with the comma delimiter. -/
def joinComma : List (List Char) → List Char
  | [] => []
  | [cell] => cell
  | cell :: rest => cell ++ ',' :: joinComma rest

/-- One serialized CSV line (terminator included). -/
def rowLine (cells : List (List Char)) : List Char :=
  joinComma (cells.map quoteCell) ++ crlf

/-- `DictWriter.writeheader()`'s line: the fieldnames as cells. -/
def headerLine (fns : List PKey) : List Char := rowLine (fns.map keyCell)

/-- `DictWriter._dict_to_list(rowdict)`: a `ValueError` when the dict holds a
key outside the fieldnames (`extrasaction='raise'`); otherwise one cell per
fieldname, missing keys giving the writer's `restval` `''`. -/
def dict_to_list (rec : Record) (fns : List PKey) : Except PyErr (List (List Char)) :=
  if rec.any (fun kv => ¬ fns.any (fun k => k = kv.1)) then .error .valueError
  else .ok (fns.map (fun k => pvalCell ((dictGet rec k).getD (.s []))))

/-- `writer.writerows(data)` appending to already-written text: rows are
serialized in order until a `ValueError`; text written before the failing
row stays written (the buffer is flushed when the `with` block closes). -/
def csvRowsLoop : List Record → List PKey → List Char → List Char × Option PyErr
  | [], _, written => (written, Option.none)
  | r :: rs, fns, written =>
    match dict_to_list r fns with
    | .error e => (written, some e)
    | .ok cells => csvRowsLoop rs fns (written ++ rowLine cells)

/-- The whole body of `update_csv_data` at the content level: header line
then rows, with the text actually reaching the file and the exception, if
any, that escaped the `with` block. -/
def serializeCsv (data : List Record) (fns : List PKey) : List Char × Option PyErr :=
  csvRowsLoop data fns (headerLine fns)

/-- `update_csv_data(file_path, data, fieldnames)`: `open(..., 'w')`
truncates the file, the writer emits header and rows in place; returns the
resulting file system and the escaping exception, if any. -/
def update_csv_data (fs : FS) (file_path : List Char) (data : List Record)
    (fns : List PKey) : FS × Option PyErr :=
  let (written, e) := serializeCsv data fns
  (setFS fs file_path written, e)

/-- The file-system states an interrupted `update_csv_data` can leave behind,
in order: untouched, truncated by `open(..., 'w')`, then after the header and
after each written row. -/
def csvPrefixes : List Record → List PKey → List Char → List (List Char)
  | [], _, written => [written]
  | r :: rs, fns, written =>
    match dict_to_list r fns with
    | .error _ => [written]
    | .ok cells => written :: csvPrefixes rs fns (written ++ rowLine cells)

/-- All crash-point states of `update_csv_data`. -/
def update_csv_states (fs : FS) (file_path : List Char) (data : List Record)
    (fns : List PKey) : List FS :=
  fs :: setFS fs file_path [] ::
    (csvPrefixes data fns (headerLine fns)).map (setFS fs file_path)

/-! ## The two sync entry points -/

/-- `EPICS_CSV_PATH`. -/
def EPICS_CSV_PATH : List Char := chars "pm/epics.csv"

/-- `BACKLOG_CSV_PATH`. -/
def BACKLOG_CSV_PATH : List Char := chars "pm/sprint_backlog.csv"

/-- A process environment, for `os.environ`. -/
abbrev Env := List (String × String)

/-- Look up an environment variable. -/
def envGet (env : Env) (name : String) : Option String :=
  match env with
  | [] => Option.none
  | (n, v) :: rest => if n = name then some v else envGet rest name

/-- `JIRA_API_TOKEN = os.environ.get("JIRA_API_TOKEN")`, evaluated at module
load.  No other line of the script ever reads this value. -/
def JIRA_API_TOKEN (env : Env) : Option String := envGet env "JIRA_API_TOKEN"

/-- Shared shape of `sync_epics_to_jira` and `sync_backlog_to_jira`: read the
CSV, run the loop, and when `dry_run` is false write the records back with
`update_csv_data(path, data, data[0].keys())` — Python evaluates
`data[0].keys()` first, so an empty collection raises `IndexError` before
any write.  Returns the final file system and, on normal termination, the
outcome list plus whether a write-back happened. -/
def syncFile (step : Record → Except PyErr (Record × Outcome × Bool))
    (path : List Char) (dry_run : Bool) (fs : FS) :
    FS × Except PyErr (List Outcome × Bool) :=
  match read_csv_data fs path with
  | .error e => (fs, .error e)
  | .ok data =>
    match syncLoop step data with
    | .error e => (fs, .error e)
    | .ok results =>
      let data₁ := results.map (fun x => x.1)
      let outcomes := results.map (fun x => x.2.1)
      if dry_run then (fs, .ok (outcomes, false))
      else
        match data₁ with
        | [] => (fs, .error .indexError)
        | d₀ :: _ =>
          let (fs₁, e) := update_csv_data fs path data₁ (dictKeys d₀)
          match e with
          | some err => (fs₁, .error err)
          | Option.none => (fs₁, .ok (outcomes, true))

/-- `sync_epics_to_jira(dry_run)` (the parameter defaults to `True` at the
call sites in `__main__`). -/
def sync_epics_to_jira (dry_run : Bool) (fs : FS) :
    FS × Except PyErr (List Outcome × Bool) :=
  syncFile epicStep EPICS_CSV_PATH dry_run fs

/-- `sync_backlog_to_jira(dry_run)`. -/
def sync_backlog_to_jira (dry_run : Bool) (fs : FS) :
    FS × Except PyErr (List Outcome × Bool) :=
  syncFile backlogStep BACKLOG_CSV_PATH dry_run fs

/-- `sync_epics_to_jira` as the module defines it: the module reads
`JIRA_API_TOKEN` from the environment at import time, but the function body
never consults it, so the run is the same for every environment. -/
def sync_epics_to_jira_env (_env : Env) (dry_run : Bool) (fs : FS) :
    FS × Except PyErr (List Outcome × Bool) :=
  sync_epics_to_jira dry_run fs

/-- `sync_backlog_to_jira` seen with the module environment (unused, like
`JIRA_API_TOKEN` itself). -/
def sync_backlog_to_jira_env (_env : Env) (dry_run : Bool) (fs : FS) :
    FS × Except PyErr (List Outcome × Bool) :=
  sync_backlog_to_jira dry_run fs

/-! ## Load/save round trip and canonical sources -/

/-- The composite `save(load(x))` at the content level, exactly as the script
performs it in commit mode: parse `x`, take the fieldnames from the first
record (`data[0].keys()`, an `IndexError` when there is none), and serialize
every record back. -/
def load_then_save (x : List Char) : Except PyErr (List Char) :=
  match parseCsv x with
  | [] => .error .indexError
  | d₀ :: rest =>
    match serializeCsv (d₀ :: rest) (dictKeys d₀) with
    | (_, some err) => .error err
    | (written, Option.none) => .ok written

/-- The text the CSV writer produces for a sequence of rows of cells
(header row included): one `rowLine` per row. -/
def tableText (rows : List (List (List Char))) : List Char :=
  (rows.map rowLine).flatten

/-- The record `csv.DictReader` builds from a row that matches the header
exactly: the fields zipped in order. -/
def zipRecord (header row : List (List Char)) : Record :=
  (header.zip row).map (fun p => (some p.1, PVal.s p.2))

/-- A well-formed table in the writer's canonical form: a non-empty header
of distinct names, at least one data row, every row as wide as the header,
no cell needing quoting, and no row serializing to a blank line. -/
def wfCsv (header : List (List Char)) (rows : List (List (List Char))) : Prop :=
  header ≠ [] ∧ header.Nodup ∧ rows ≠ [] ∧
  (∀ r ∈ header :: rows, (∀ c ∈ r, needsQuote c = false) ∧ joinComma r ≠ []) ∧
  (∀ r ∈ rows, r.length = header.length)

/-! ## Concrete inputs used by witnesses and counterexamples -/

/-- The spec's example collection, as the bytes of `pm/epics.csv`. -/
def exContent : List Char :=
  chars "EpicID,Title,JiraTicketID\r\nE1,Login flow,\r\nE2,Billing,FER-10\r\n"

/-- The spec's example record E1, as loaded. -/
def exRec1 : Record :=
  [(kEpicID, .s (chars "E1")), (kTitle, .s (chars "Login flow")), (kJira, .s [])]

/-- The spec's example record E2, as loaded. -/
def exRec2 : Record :=
  [(kEpicID, .s (chars "E2")), (kTitle, .s (chars "Billing")), (kJira, .s (chars "FER-10"))]

/-- A file system holding the spec's example collection. -/
def exFS : FS := [(EPICS_CSV_PATH, exContent)]

/-- `pm/epics.csv` after the commit-mode run on `exFS`. -/
def exContent2 : List Char :=
  chars "EpicID,Title,JiraTicketID\r\nE1,Login flow,FER-101\r\nE2,Billing,FER-10\r\n"

/-- A record already carrying the remote id `FER-999`. -/
def rec999 : Record :=
  [(kEpicID, .s (chars "E9")), (kTitle, .s (chars "Search")),
    (kJira, .s (chars "FER-999"))]

/-- A backlog record already carrying the remote id `FER-999`. -/
def rec999b : Record :=
  [(kSubID, .s (chars "T1.1")), (kSubDesc, .s (chars "Implement login")),
    (kJira, .s (chars "FER-999"))]

/-- An unsynchronised backlog record. -/
def recBacklogNew : Record :=
  [(kSubID, .s (chars "T1.2")), (kSubDesc, .s (chars "Add tests")),
    (kJira, .s [])]

/-- A file system whose epics collection is fully synchronised already,
persisted with bare-LF line endings. -/
def fsAllSkip : FS :=
  [(EPICS_CSV_PATH, chars "EpicID,Title,JiraTicketID\nE2,Billing,FER-10\n")]

/-- A file system with a header-only epics source and an empty backlog
source (both parse to zero records). -/
def fsNoRecords : FS :=
  [(EPICS_CSV_PATH, chars "EpicID,Title,JiraTicketID\n"), (BACKLOG_CSV_PATH, [])]

/-- A source with a data row shorter than its header. -/
def shortRowContent : List Char := chars "A,B,C\r\nx,y\r\n"

/-- A source with a data row longer than its header. -/
def longRowContent : List Char := chars "A,B\r\nx,y,z,w\r\n"

/-- A one-file file system used for the write-atomicity analysis. -/
def fsC6 : FS := [(chars "f.csv", chars "OLD")]

/-- One well-formed record for the write-atomicity analysis. -/
def dataC6 : List Record := [[(some (chars "A"), PVal.s (chars "x"))]]

/-- The fieldnames for `dataC6`. -/
def fnsC6 : List PKey := [some (chars "A")]

/-- A well-formed source with bare-LF line terminators. -/
def lfContent : List Char := chars "EpicID,Title,JiraTicketID\nE1,Login flow,FER-1\n"

/-- What `load_then_save` makes of `lfContent`: the same fields rewritten
with the writer's CRLF terminators. -/
def lfContentRewritten : List Char :=
  chars "EpicID,Title,JiraTicketID\r\nE1,Login flow,FER-1\r\n"

/-- The spec's example record E1 after its simulated creation. -/
def exRec1Synced : Record :=
  [(kEpicID, .s (chars "E1")), (kTitle, .s (chars "Login flow")),
    (kJira, .s (chars "FER-101"))]

/-! # Theorems

## Association-list toolkit -/

theorem assocGet_assocSet_self {α β : Type} [DecidableEq α]
    (l : List (α × β)) (k : α) (v : β) :
    assocGet (assocSet l k v) k = some v := by
  induction l with
  | nil => simp [assocSet, assocGet]
  | cons kv rest ih =>
    obtain ⟨k₀, v₀⟩ := kv
    by_cases h₀ : k₀ = k
    · simp [assocSet, h₀, assocGet]
    · simp only [assocSet, if_neg h₀, assocGet, if_neg h₀]
      exact ih

theorem assocGet_assocSet_ne {α β : Type} [DecidableEq α]
    (l : List (α × β)) (k k₂ : α) (v : β) (hne : k₂ ≠ k) :
    assocGet (assocSet l k v) k₂ = assocGet l k₂ := by
  induction l with
  | nil =>
    simp only [assocSet, assocGet]
    rw [if_neg (fun h => hne h.symm)]
  | cons kv rest ih =>
    obtain ⟨k₀, v₀⟩ := kv
    by_cases h₀ : k₀ = k
    · subst h₀
      simp only [assocSet, if_pos rfl, assocGet]
      rw [if_neg (fun h => hne h.symm), if_neg (fun h => hne h.symm)]
    · simp only [assocSet, if_neg h₀, assocGet]
      by_cases h₂ : k₀ = k₂
      · rw [if_pos h₂, if_pos h₂]
      · rw [if_neg h₂, if_neg h₂]
        exact ih

theorem assocSet_append_of_not_bound {α β : Type} [DecidableEq α]
    (l : List (α × β)) (k : α) (v : β)
    (h : ∀ kv ∈ l, kv.1 ≠ k) :
    assocSet l k v = l ++ [(k, v)] := by
  induction l with
  | nil => rfl
  | cons kv rest ih =>
    obtain ⟨k₀, v₀⟩ := kv
    simp only [assocSet, if_neg (h (k₀, v₀) (List.mem_cons_self _ _))]
    rw [ih (fun kv hkv => h kv (List.mem_cons_of_mem _ hkv))]
    rfl

/-! ## Per-record step lemmas -/

theorem kTitle_ne_kJira : kTitle ≠ kJira := by decide

theorem kSubDesc_ne_kJira : kSubDesc ≠ kJira := by decide

theorem pyTruthy_FER (w : List Char) :
    pyTruthy (some (.s (chars "FER-" ++ w))) = true := rfl

theorem epicStep_skip (r : Record) (tid : List Char) (hne : tid ≠ [])
    (hjid : dictGet r kJira = some (.s tid))
    (x : Record × Outcome × Bool) (h : epicStep r = .ok x) :
    x = (r, .skipped tid, false) := by
  have htr : pyTruthy (dictGet r kJira) = true := by
    rw [hjid]
    cases tid with
    | nil => exact absurd rfl hne
    | cons c cs => rfl
  unfold epicStep at h
  rw [htr] at h
  simp only [if_true] at h
  cases hT : dictGet r kTitle with
  | none => rw [hT] at h; simp at h
  | some tv =>
    rw [hT, hjid] at h
    injection h with h₁
    exact h₁.symm

theorem backlogStep_skip (r : Record) (tid : List Char) (hne : tid ≠ [])
    (hjid : dictGet r kJira = some (.s tid))
    (x : Record × Outcome × Bool) (h : backlogStep r = .ok x) :
    x = (r, .skipped tid, false) := by
  have htr : pyTruthy (dictGet r kJira) = true := by
    rw [hjid]
    cases tid with
    | nil => exact absurd rfl hne
    | cons c cs => rfl
  unfold backlogStep at h
  rw [htr] at h
  simp only [if_true] at h
  cases hT : dictGet r kSubDesc with
  | none => rw [hT] at h; simp at h
  | some tv =>
    rw [hT, hjid] at h
    cases tv with
    | s tvs => injection h with h₁; exact h₁.symm
    | none => simp at h
    | lst l => injection h with h₁; exact h₁.symm

theorem epicStep_created_key (r : Record) (x : Record × Outcome × Bool)
    (k : List Char) (h : epicStep r = .ok x) (hk : x.2.1 = .created k) :
    dictGet x.1 kJira = some (.s k) := by
  unfold epicStep at h
  by_cases hb : pyTruthy (dictGet r kJira) = true
  · rw [if_pos hb] at h
    cases hT : dictGet r kTitle with
    | none => rw [hT] at h; simp at h
    | some tv =>
      rw [hT] at h
      injection h with h₁
      rw [← h₁] at hk
      simp at hk
  · rw [if_neg hb] at h
    cases hT : dictGet r kTitle with
    | none => rw [hT] at h; simp at h
    | some tv =>
      rw [hT] at h
      cases hE : dictGet r kEpicID with
      | none => rw [hE] at h; simp at h
      | some ev =>
        rw [hE] at h
        cases ev with
        | s s =>
          injection h with h₁
          rw [← h₁] at hk ⊢
          simp only at hk ⊢
          injection hk with hk₁
          rw [← hk₁]
          exact assocGet_assocSet_self r kJira _
        | none => simp at h
        | lst l => simp at h

theorem backlogStep_created_key (r : Record) (x : Record × Outcome × Bool)
    (k : List Char) (h : backlogStep r = .ok x) (hk : x.2.1 = .created k) :
    dictGet x.1 kJira = some (.s k) := by
  unfold backlogStep at h
  by_cases hb : pyTruthy (dictGet r kJira) = true
  · rw [if_pos hb] at h
    cases hT : dictGet r kSubDesc with
    | none => rw [hT] at h; simp at h
    | some tv =>
      rw [hT] at h
      cases tv with
      | none => simp at h
      | s tvs =>
        injection h with h₁
        rw [← h₁] at hk
        simp at hk
      | lst l =>
        injection h with h₁
        rw [← h₁] at hk
        simp at hk
  · rw [if_neg hb] at h
    cases hT : dictGet r kSubDesc with
    | none => rw [hT] at h; simp at h
    | some tv =>
      rw [hT] at h
      cases tv with
      | none => simp at h
      | s tvs =>
        cases hS : dictGet r kSubID with
        | none => rw [hS] at h; simp at h
        | some sv =>
          rw [hS] at h
          cases sv with
          | s s =>
            injection h with h₁
            rw [← h₁] at hk ⊢
            simp only at hk ⊢
            injection hk with hk₁
            rw [← hk₁]
            exact assocGet_assocSet_self r kJira _
          | none => simp at h
          | lst l => simp at h
      | lst l =>
        cases hS : dictGet r kSubID with
        | none => rw [hS] at h; simp at h
        | some sv =>
          rw [hS] at h
          cases sv with
          | s s =>
            injection h with h₁
            rw [← h₁] at hk ⊢
            simp only at hk ⊢
            injection hk with hk₁
            rw [← hk₁]
            exact assocGet_assocSet_self r kJira _
          | none => simp at h
          | lst l₂ => simp at h

theorem epicStep_ok_restep (r : Record) (x : Record × Outcome × Bool)
    (h : epicStep r = .ok x) :
    ∃ t, epicStep x.1 = .ok (x.1, .skipped t, false) := by
  unfold epicStep at h
  by_cases hb : pyTruthy (dictGet r kJira) = true
  · rw [if_pos hb] at h
    cases hT : dictGet r kTitle with
    | none => rw [hT] at h; simp at h
    | some tv =>
      rw [hT] at h
      injection h with h₁
      refine ⟨pvalFormat ((dictGet r kJira).getD .none), ?_⟩
      rw [← h₁]
      simp only
      unfold epicStep
      rw [if_pos hb, hT]
  · rw [if_neg hb] at h
    cases hT : dictGet r kTitle with
    | none => rw [hT] at h; simp at h
    | some tv =>
      rw [hT] at h
      cases hE : dictGet r kEpicID with
      | none => rw [hE] at h; simp at h
      | some ev =>
        rw [hE] at h
        cases ev with
        | none => simp at h
        | lst l => simp at h
        | s s =>
          injection h with h₁
          rw [← h₁]
          simp only
          have hg : dictGet (dictInsert r kJira
              (.s (chars "FER-" ++ replaceChar 'E' (chars "10") s))) kJira =
              some (.s (chars "FER-" ++ replaceChar 'E' (chars "10") s)) :=
            assocGet_assocSet_self r kJira _
          have hg₂ : dictGet (dictInsert r kJira
              (.s (chars "FER-" ++ replaceChar 'E' (chars "10") s))) kTitle =
              some tv := by
            rw [show dictGet (dictInsert r kJira
                (.s (chars "FER-" ++ replaceChar 'E' (chars "10") s))) kTitle =
              assocGet (assocSet r kJira
                (.s (chars "FER-" ++ replaceChar 'E' (chars "10") s))) kTitle from rfl]
            rw [assocGet_assocSet_ne r kJira kTitle _ kTitle_ne_kJira]
            exact hT
          refine ⟨chars "FER-" ++ replaceChar 'E' (chars "10") s, ?_⟩
          unfold epicStep
          rw [hg, pyTruthy_FER, if_pos rfl, hg₂]
          rfl

theorem backlogStep_ok_restep (r : Record) (x : Record × Outcome × Bool)
    (h : backlogStep r = .ok x) :
    ∃ t, backlogStep x.1 = .ok (x.1, .skipped t, false) := by
  unfold backlogStep at h
  by_cases hb : pyTruthy (dictGet r kJira) = true
  · rw [if_pos hb] at h
    cases hT : dictGet r kSubDesc with
    | none => rw [hT] at h; simp at h
    | some tv =>
      rw [hT] at h
      cases tv with
      | none => simp at h
      | s tvs =>
        injection h with h₁
        refine ⟨pvalFormat ((dictGet r kJira).getD .none), ?_⟩
        rw [← h₁]
        simp only
        unfold backlogStep
        rw [if_pos hb, hT]
      | lst l =>
        injection h with h₁
        refine ⟨pvalFormat ((dictGet r kJira).getD .none), ?_⟩
        rw [← h₁]
        simp only
        unfold backlogStep
        rw [if_pos hb, hT]
  · rw [if_neg hb] at h
    cases hT : dictGet r kSubDesc with
    | none => rw [hT] at h; simp at h
    | some tv =>
      rw [hT] at h
      have hcreate : ∀ s : List Char,
          dictGet r kSubID = some (.s s) →
          x = (dictInsert r kJira
              (.s (chars "FER-" ++ replaceChar '.' (chars "0") (replaceChar 'T' [] s))),
            .created (chars "FER-" ++ replaceChar '.' (chars "0") (replaceChar 'T' [] s)),
            true) →
          ∃ t, backlogStep x.1 = .ok (x.1, .skipped t, false) := by
        intro s hS hx
        subst hx
        simp only
        have hg : dictGet (dictInsert r kJira
            (.s (chars "FER-" ++ replaceChar '.' (chars "0") (replaceChar 'T' [] s)))) kJira =
            some (.s (chars "FER-" ++ replaceChar '.' (chars "0") (replaceChar 'T' [] s))) :=
          assocGet_assocSet_self r kJira _
        have hg₂ : dictGet (dictInsert r kJira
            (.s (chars "FER-" ++ replaceChar '.' (chars "0") (replaceChar 'T' [] s)))) kSubDesc =
            some tv := by
          rw [show dictGet (dictInsert r kJira
              (.s (chars "FER-" ++ replaceChar '.' (chars "0") (replaceChar 'T' [] s)))) kSubDesc =
            assocGet (assocSet r kJira
              (.s (chars "FER-" ++ replaceChar '.' (chars "0") (replaceChar 'T' [] s)))) kSubDesc from rfl]
          rw [assocGet_assocSet_ne r kJira kSubDesc _ kSubDesc_ne_kJira]
          exact hT
        refine ⟨chars "FER-" ++ replaceChar '.' (chars "0") (replaceChar 'T' [] s), ?_⟩
        unfold backlogStep
        rw [hg, pyTruthy_FER, if_pos rfl, hg₂]
        cases tv with
        | none => simp at h
        | s tvs => rfl
        | lst l => rfl
      cases tv with
      | none => simp at h
      | s tvs =>
        cases hS : dictGet r kSubID with
        | none => rw [hS] at h; simp at h
        | some sv =>
          rw [hS] at h
          cases sv with
          | none => simp at h
          | lst l => simp at h
          | s s =>
            injection h with h₁
            exact hcreate s hS h₁.symm
      | lst l =>
        cases hS : dictGet r kSubID with
        | none => rw [hS] at h; simp at h
        | some sv =>
          rw [hS] at h
          cases sv with
          | none => simp at h
          | lst l₂ => simp at h
          | s s =>
            injection h with h₁
            exact hcreate s hS h₁.symm

/-! ## Loop lemmas -/

theorem syncLoop_ok_get (step : Record → Except PyErr (Record × Outcome × Bool))
    (recs : List Record) (res : List (Record × Outcome × Bool))
    (h : syncLoop step recs = .ok res) (i : Nat) (r : Record)
    (hi : recs[i]? = some r) :
    ∃ x, res[i]? = some x ∧ step r = .ok x := by
  induction recs generalizing res i with
  | nil => simp at hi
  | cons r₀ rs ih =>
    unfold syncLoop at h
    cases hs : step r₀ with
    | error e => rw [hs] at h; simp at h
    | ok x₀ =>
      rw [hs] at h
      cases hl : syncLoop step rs with
      | error e => rw [hl] at h; simp at h
      | ok xs =>
        rw [hl] at h
        injection h with h₁
        subst h₁
        cases i with
        | zero =>
          simp only [List.getElem?_cons_zero, Option.some.injEq] at hi
          subst hi
          exact ⟨x₀, by simp, hs⟩
        | succ i =>
          simp only [List.getElem?_cons_succ] at hi
          obtain ⟨x, hx₁, hx₂⟩ := ih xs hl i hi
          exact ⟨x, by simpa using hx₁, hx₂⟩

theorem syncLoop_restep (step : Record → Except PyErr (Record × Outcome × Bool))
    (hstep : ∀ r x, step r = .ok x → ∃ t, step x.1 = .ok (x.1, .skipped t, false))
    (recs : List Record) (res : List (Record × Outcome × Bool))
    (h : syncLoop step recs = .ok res) :
    ∃ res₂, syncLoop step (res.map (fun x => x.1)) = .ok res₂ ∧
      res₂.map (fun x => x.1) = res.map (fun x => x.1) ∧
      ∀ x ∈ res₂, (∃ t, x.2.1 = .skipped t) ∧ x.2.2 = false := by
  induction recs generalizing res with
  | nil =>
    unfold syncLoop at h
    injection h with h₁
    subst h₁
    exact ⟨[], rfl, rfl, by simp⟩
  | cons r₀ rs ih =>
    unfold syncLoop at h
    cases hs : step r₀ with
    | error e => rw [hs] at h; simp at h
    | ok x₀ =>
      rw [hs] at h
      cases hl : syncLoop step rs with
      | error e => rw [hl] at h; simp at h
      | ok xs =>
        rw [hl] at h
        injection h with h₁
        subst h₁
        obtain ⟨t₀, ht₀⟩ := hstep r₀ x₀ hs
        obtain ⟨res₂, hres₂, hmap, hall⟩ := ih xs hl
        refine ⟨(x₀.1, .skipped t₀, false) :: res₂, ?_, ?_, ?_⟩
        · simp only [List.map_cons]
          unfold syncLoop
          rw [ht₀, hres₂]
        · simp [hmap]
        · intro x hx
          rcases List.mem_cons.mp hx with hx | hx
          · subst hx
            exact ⟨⟨t₀, rfl⟩, rfl⟩
          · exact hall x hx

/-! ## Claim C1 -/

/-- C1: in both sync loops, a loaded record whose `JiraTicketID` field is a
non-empty string is never submitted to the (simulated) remote ticket client
(its call flag is `false`), its outcome is `Skipped` carrying exactly the
pre-existing identifier, and the record — its `JiraTicketID` included — is
unchanged at the end of the run. -/
theorem c1_skip_invariant :
    (∀ (recs : List Record) (res : List (Record × Outcome × Bool)) (i : Nat)
      (r : Record) (tid : List Char),
      epicsLoop recs = .ok res → recs[i]? = some r →
      dictGet r kJira = some (.s tid) → tid ≠ [] →
      res[i]? = some (r, .skipped tid, false))
    ∧ (∀ (recs : List Record) (res : List (Record × Outcome × Bool)) (i : Nat)
      (r : Record) (tid : List Char),
      backlogLoop recs = .ok res → recs[i]? = some r →
      dictGet r kJira = some (.s tid) → tid ≠ [] →
      res[i]? = some (r, .skipped tid, false)) := by
  constructor
  · intro recs res i r tid h hi hjid hne
    obtain ⟨x, hx₁, hx₂⟩ := syncLoop_ok_get epicStep recs res h i r hi
    rw [epicStep_skip r tid hne hjid x hx₂] at hx₁
    exact hx₁
  · intro recs res i r tid h hi hjid hne
    obtain ⟨x, hx₁, hx₂⟩ := syncLoop_ok_get backlogStep recs res h i r hi
    rw [backlogStep_skip r tid hne hjid x hx₂] at hx₁
    exact hx₁

/-- Witness for C1: the record pre-set to `FER-999` yields
`Skipped("FER-999")`, unchanged, with no client call. -/
theorem c1_skip_invariant_witness :
    epicsLoop [rec999] = .ok [(rec999, .skipped (chars "FER-999"), false)] ∧
    [(rec999, Outcome.skipped (chars "FER-999"), false)][0]? =
      some (rec999, .skipped (chars "FER-999"), false) :=
  ⟨by decide,
    c1_skip_invariant.1 [rec999] [(rec999, .skipped (chars "FER-999"), false)]
      0 rec999 (chars "FER-999") (by decide) (by decide) (by decide) (by decide)⟩

/-! ## Claim C3 -/

/-- C3: running a reconciliation loop a second time on the in-memory records
produced by a successful first pass yields zero `Created` outcomes — every
record is skipped, no simulated client call is made, and the records are
unchanged — for the epics loop and the backlog loop alike. -/
theorem c3_reconcile_idempotent :
    (∀ (recs : List Record) (res : List (Record × Outcome × Bool)),
      epicsLoop recs = .ok res →
      ∃ res₂, epicsLoop (res.map (fun x => x.1)) = .ok res₂ ∧
        res₂.map (fun x => x.1) = res.map (fun x => x.1) ∧
        ∀ x ∈ res₂, (∃ t, x.2.1 = .skipped t) ∧ x.2.2 = false)
    ∧ (∀ (recs : List Record) (res : List (Record × Outcome × Bool)),
      backlogLoop recs = .ok res →
      ∃ res₂, backlogLoop (res.map (fun x => x.1)) = .ok res₂ ∧
        res₂.map (fun x => x.1) = res.map (fun x => x.1) ∧
        ∀ x ∈ res₂, (∃ t, x.2.1 = .skipped t) ∧ x.2.2 = false) :=
  ⟨fun recs res h => syncLoop_restep epicStep epicStep_ok_restep recs res h,
    fun recs res h => syncLoop_restep backlogStep backlogStep_ok_restep recs res h⟩

/-- Witness for C3: a first pass that creates `FER-101` for the example
record, re-run on its own output. -/
theorem c3_reconcile_idempotent_witness :
    epicsLoop [exRec1] = .ok [(exRec1Synced, .created (chars "FER-101"), true)] ∧
    (∃ res₂,
      epicsLoop ([(exRec1Synced, Outcome.created (chars "FER-101"), true)].map
        (fun x => x.1)) = .ok res₂ ∧
      res₂.map (fun x => x.1) =
        [(exRec1Synced, Outcome.created (chars "FER-101"), true)].map (fun x => x.1) ∧
      ∀ x ∈ res₂, (∃ t, x.2.1 = .skipped t) ∧ x.2.2 = false) :=
  ⟨by decide,
    c3_reconcile_idempotent.1 [exRec1]
      [(exRec1Synced, .created (chars "FER-101"), true)] (by decide)⟩

/-! ## Run-controller lemmas -/

theorem syncFile_dry_run_fst (step : Record → Except PyErr (Record × Outcome × Bool))
    (path : List Char) (fs : FS) : (syncFile step path true fs).1 = fs := by
  unfold syncFile
  cases hr : read_csv_data fs path with
  | error e => rfl
  | ok data =>
    cases hl : syncLoop step data with
    | error e => simp [hl]
    | ok results => simp [hl]

theorem syncFile_commit_wrote (step : Record → Except PyErr (Record × Outcome × Bool))
    (path : List Char) (fs : FS) (outs : List Outcome) (b : Bool)
    (h : (syncFile step path false fs).2 = .ok (outs, b)) : b = true := by
  unfold syncFile at h
  split at h
  · simp at h
  · split at h
    · simp at h
    · simp only [Bool.false_eq_true, if_false] at h
      split at h
      · simp at h
      · split at h
        · simp at h
        · simp only at h
          injection h with h₁
          injection h₁ with h₂ h₃
          exact h₃.symm

theorem syncFile_no_records_commit (step : Record → Except PyErr (Record × Outcome × Bool))
    (path : List Char) (fs : FS) (c : List Char)
    (hc : lookupFS fs path = some c) (hp : parseCsv c = []) :
    syncFile step path false fs = (fs, .error .indexError) := by
  unfold syncFile read_csv_data
  rw [hc]
  simp only [hp]
  rfl

theorem syncFile_no_records_dry (step : Record → Except PyErr (Record × Outcome × Bool))
    (path : List Char) (fs : FS) (c : List Char)
    (hc : lookupFS fs path = some c) (hp : parseCsv c = []) :
    syncFile step path true fs = (fs, .ok ([], false)) := by
  unfold syncFile read_csv_data
  rw [hc]
  simp only [hp]
  rfl

theorem syncFile_missing (step : Record → Except PyErr (Record × Outcome × Bool))
    (path : List Char) (d : Bool) (fs : FS)
    (hc : lookupFS fs path = Option.none) :
    syncFile step path d fs = (fs, .error .fileNotFoundError) := by
  unfold syncFile read_csv_data
  rw [hc]

/-! ## Claim C2 -/

/-- C2: a dry-run pass (`dry_run=True`, the scripts' default) leaves the
file system — in particular the bytes of each persisted source — exactly as
it found them, for both sync entry points and for every starting state,
however many records lacked a remote ticket identifier. -/
theorem c2_dry_run_purity : ∀ fs : FS,
    (sync_epics_to_jira true fs).1 = fs ∧ (sync_backlog_to_jira true fs).1 = fs :=
  fun fs => ⟨syncFile_dry_run_fst epicStep EPICS_CSV_PATH fs,
    syncFile_dry_run_fst backlogStep BACKLOG_CSV_PATH fs⟩

/-! ## Claim C4 -/

/-- C4 counterexample: on the spec's example collection the simulated client
derives `FER-101` for E1 (`"E1".replace('E', '10')`), not the `FER-11` the
claim expects. -/
theorem c4_counterexample :
    (sync_epics_to_jira false exFS).2 =
      .ok ([.created (chars "FER-101"), .skipped (chars "FER-10")], true) ∧
    Outcome.created (chars "FER-101") ≠ .created (chars "FER-11") := by
  decide

/-- C4 amended: for the example collection the run yields `Created(FER-101)`
for E1 and `Skipped(FER-10)` for E2, and the commit-mode run persists E1's
`JiraTicketID` as `FER-101`; in general a successful creation with key `k`
stamps `k` into the record and reports `Created(k)`. -/
theorem c4_create_stamps_key :
    sync_epics_to_jira false exFS =
      ([(EPICS_CSV_PATH, exContent2)],
        .ok ([.created (chars "FER-101"), .skipped (chars "FER-10")], true)) ∧
    (∀ (r : Record) (x : Record × Outcome × Bool) (k : List Char),
      epicStep r = .ok x → x.2.1 = .created k → dictGet x.1 kJira = some (.s k)) ∧
    (∀ (r : Record) (x : Record × Outcome × Bool) (k : List Char),
      backlogStep r = .ok x → x.2.1 = .created k → dictGet x.1 kJira = some (.s k)) :=
  ⟨by decide, epicStep_created_key, backlogStep_created_key⟩

/-- Witness for C4's general part at the example record E1. -/
theorem c4_create_stamps_key_witness :
    epicStep exRec1 = .ok (exRec1Synced, .created (chars "FER-101"), true) ∧
    dictGet exRec1Synced kJira = some (.s (chars "FER-101")) :=
  ⟨by decide,
    c4_create_stamps_key.2.1 exRec1 (exRec1Synced, .created (chars "FER-101"), true)
      (chars "FER-101") (by decide) (by decide)⟩

/-! ## Claim C5 -/

/-- C5 counterexample: loading an empty source succeeds with zero records —
no `FormatError` (or any error) is raised. -/
theorem c5_counterexample :
    read_csv_data [(EPICS_CSV_PATH, [])] EPICS_CSV_PATH = .ok [] ∧
    (read_csv_data [(EPICS_CSV_PATH, [])] EPICS_CSV_PATH).isOk = true := by
  decide

/-- C5 amended: the load fails only for a missing source
(`FileNotFoundError`, which aborts the run before any loop iteration); it
performs no format validation — an empty source loads as zero records, a
row shorter than the header is padded with `None`, and a longer row keeps
its overflow under the rest key. -/
theorem c5_load_validation :
    (∀ (fs : FS) (path : List Char), lookupFS fs path = Option.none →
      read_csv_data fs path = .error .fileNotFoundError) ∧
    (∀ (fs : FS) (d : Bool), lookupFS fs EPICS_CSV_PATH = Option.none →
      sync_epics_to_jira d fs = (fs, .error .fileNotFoundError)) ∧
    read_csv_data [(chars "e.csv", [])] (chars "e.csv") = .ok [] ∧
    read_csv_data [(chars "s.csv", shortRowContent)] (chars "s.csv") =
      .ok [[(some (chars "A"), .s (chars "x")), (some (chars "B"), .s (chars "y")),
        (some (chars "C"), PVal.none)]] ∧
    read_csv_data [(chars "l.csv", longRowContent)] (chars "l.csv") =
      .ok [[(some (chars "A"), .s (chars "x")), (some (chars "B"), .s (chars "y")),
        (Option.none, .lst [chars "z", chars "w"])]] := by
  refine ⟨?_, ?_, by decide, by decide, by decide⟩
  · intro fs path h
    unfold read_csv_data
    rw [h]
  · intro fs d h
    exact syncFile_missing epicStep EPICS_CSV_PATH d fs h

/-- Witness for C5's universally quantified parts at the empty file system. -/
theorem c5_load_validation_witness :
    lookupFS [] EPICS_CSV_PATH = Option.none ∧
    sync_epics_to_jira true [] = ([], .error .fileNotFoundError) :=
  ⟨by decide, c5_load_validation.2.1 [] true (by decide)⟩

/-! ## Claim C7 -/

/-- C7 counterexample: a commit-mode run in which every record was already
synchronised (the only outcome is `Skipped`) still invokes the write-back,
and here it even changes the persisted bytes (LF terminators are rewritten
as CRLF). -/
theorem c7_counterexample :
    (sync_epics_to_jira false fsAllSkip).2 =
      .ok ([.skipped (chars "FER-10")], true) ∧
    (sync_epics_to_jira false fsAllSkip).1 ≠ fsAllSkip := by
  decide

/-- C7 amended: in commit mode the write-back is unconditional — every
normally terminating commit run reports a performed write-back, dirty or
not. -/
theorem c7_commit_always_writes :
    (∀ (fs : FS) (outs : List Outcome) (b : Bool),
      (sync_epics_to_jira false fs).2 = .ok (outs, b) → b = true) ∧
    (∀ (fs : FS) (outs : List Outcome) (b : Bool),
      (sync_backlog_to_jira false fs).2 = .ok (outs, b) → b = true) :=
  ⟨fun fs outs b h => syncFile_commit_wrote epicStep EPICS_CSV_PATH fs outs b h,
    fun fs outs b h => syncFile_commit_wrote backlogStep BACKLOG_CSV_PATH fs outs b h⟩

/-- Witness for C7 at the fully synchronised file system. -/
theorem c7_commit_always_writes_witness :
    (sync_epics_to_jira false fsAllSkip).2 =
      .ok ([Outcome.skipped (chars "FER-10")], true) ∧ true = true :=
  ⟨by decide,
    c7_commit_always_writes.1 fsAllSkip [Outcome.skipped (chars "FER-10")] true
      (by decide)⟩

/-! ## Claim C8 -/

/-- C8 counterexample: with an environment holding no `JIRA_API_TOKEN` the
run neither fails nor reports the missing credential — it completes
normally and submits the unsynchronised record to the (simulated) creation
step. -/
theorem c8_counterexample :
    JIRA_API_TOKEN [] = Option.none ∧
    (sync_epics_to_jira_env [] true exFS).2 =
      .ok ([.created (chars "FER-101"), .skipped (chars "FER-10")], false) := by
  constructor
  · rfl
  · decide

/-- C8 amended: the module reads `JIRA_API_TOKEN` at import, but no code
path ever consults it — both sync functions behave identically under every
environment, token present or absent. -/
theorem c8_token_never_consulted :
    ∀ (env₁ env₂ : Env) (d : Bool) (fs : FS),
      sync_epics_to_jira_env env₁ d fs = sync_epics_to_jira_env env₂ d fs ∧
      sync_backlog_to_jira_env env₁ d fs = sync_backlog_to_jira_env env₂ d fs :=
  fun _ _ _ _ => ⟨rfl, rfl⟩

/-! ## Claim C10 -/

/-- C10: when a source parses to zero records, the commit-mode run raises an
unhandled `IndexError` at the write-back step (`data[0].keys()` on an empty
list) — the source is not rewritten and the run does not terminate normally
— while the dry-run completes normally with zero outcomes. -/
theorem c10_empty_collection :
    ∀ (fs : FS) (cE cB : List Char),
      lookupFS fs EPICS_CSV_PATH = some cE → parseCsv cE = [] →
      lookupFS fs BACKLOG_CSV_PATH = some cB → parseCsv cB = [] →
      sync_epics_to_jira false fs = (fs, .error .indexError) ∧
      sync_epics_to_jira true fs = (fs, .ok ([], false)) ∧
      sync_backlog_to_jira false fs = (fs, .error .indexError) ∧
      sync_backlog_to_jira true fs = (fs, .ok ([], false)) :=
  fun fs cE cB hE hpE hB hpB =>
    ⟨syncFile_no_records_commit epicStep EPICS_CSV_PATH fs cE hE hpE,
      syncFile_no_records_dry epicStep EPICS_CSV_PATH fs cE hE hpE,
      syncFile_no_records_commit backlogStep BACKLOG_CSV_PATH fs cB hB hpB,
      syncFile_no_records_dry backlogStep BACKLOG_CSV_PATH fs cB hB hpB⟩

/-- Witness for C10: a header-only epics source and an empty backlog source. -/
theorem c10_empty_collection_witness :
    parseCsv (chars "EpicID,Title,JiraTicketID\n") = [] ∧
    (sync_epics_to_jira false fsNoRecords = (fsNoRecords, .error .indexError) ∧
      sync_epics_to_jira true fsNoRecords = (fsNoRecords, .ok ([], false)) ∧
      sync_backlog_to_jira false fsNoRecords = (fsNoRecords, .error .indexError) ∧
      sync_backlog_to_jira true fsNoRecords = (fsNoRecords, .ok ([], false))) :=
  ⟨by decide,
    c10_empty_collection fsNoRecords (chars "EpicID,Title,JiraTicketID\n") []
      (by decide) (by decide) (by decide) (by decide)⟩

/-! ## Writer lemmas -/

theorem rowLine_ne_nil (cells : List (List Char)) : rowLine cells ≠ [] := by
  simp [rowLine, crlf]

theorem csvRowsLoop_fst_prefix (data : List Record) (fns : List PKey) (w : List Char) :
    ∃ t, (csvRowsLoop data fns w).1 = w ++ t := by
  induction data generalizing w with
  | nil => exact ⟨[], (List.append_nil w).symm⟩
  | cons r rs ih =>
    unfold csvRowsLoop
    cases hd : dict_to_list r fns with
    | error e => exact ⟨[], (List.append_nil w).symm⟩
    | ok cells =>
      obtain ⟨t, ht⟩ := ih (w ++ rowLine cells)
      exact ⟨rowLine cells ++ t, by rw [ht, List.append_assoc]⟩

theorem serializeCsv_fst_ne_nil (data : List Record) (fns : List PKey) :
    (serializeCsv data fns).1 ≠ [] := by
  obtain ⟨t, ht⟩ := csvRowsLoop_fst_prefix data fns (headerLine fns)
  unfold serializeCsv
  rw [ht]
  intro h
  rcases List.append_eq_nil.mp h with ⟨h₁, h₂⟩
  exact rowLine_ne_nil _ h₁

/-! ## Claim C6 -/

/-- C6 counterexample: the write is not atomic — among the states an
interrupted `update_csv_data` can leave behind there is one (the truncated
file) whose bytes are neither the previous content nor the complete new
content. -/
theorem c6_counterexample :
    ¬ ∀ s ∈ update_csv_states fsC6 (chars "f.csv") dataC6 fnsC6,
        lookupFS s (chars "f.csv") = lookupFS fsC6 (chars "f.csv") ∨
        lookupFS s (chars "f.csv") =
          lookupFS (update_csv_data fsC6 (chars "f.csv") dataC6 fnsC6).1
            (chars "f.csv") := by
  decide

/-- C6 amended: `update_csv_data` overwrites the destination in place — it
truncates the file (`open(..., 'w')`) and then writes header and rows
directly, using no temporary file (no path other than the destination is
ever touched); an interruption can therefore leave the destination empty,
bytes that are neither the old nor the complete new content. -/
theorem c6_save_overwrites_in_place :
    ∀ (fs : FS) (path : List Char) (data : List Record) (fns : List PKey),
      (update_csv_states fs path data fns).head? = some fs ∧
      setFS fs path [] ∈ update_csv_states fs path data fns ∧
      (∀ s ∈ update_csv_states fs path data fns, ∀ q, q ≠ path →
        lookupFS s q = lookupFS fs q) ∧
      (update_csv_data fs path data fns).1 =
        setFS fs path (serializeCsv data fns).1 ∧
      (lookupFS fs path ≠ some [] →
        lookupFS (setFS fs path []) path ≠ lookupFS fs path ∧
        lookupFS (setFS fs path []) path ≠
          lookupFS (update_csv_data fs path data fns).1 path) := by
  intro fs path data fns
  have hupd : (update_csv_data fs path data fns).1 =
      setFS fs path (serializeCsv data fns).1 := by
    cases hsc : serializeCsv data fns with
    | mk w e => simp [update_csv_data, hsc]
  refine ⟨rfl, List.mem_cons_of_mem _ (List.mem_cons_self _ _), ?_, hupd, ?_⟩
  · intro s hs q hq
    rcases List.mem_cons.mp hs with hs | hs
    · rw [hs]
    rcases List.mem_cons.mp hs with hs | hs
    · rw [hs]
      exact assocGet_assocSet_ne fs path q [] hq
    · obtain ⟨w, hw, hmap⟩ := List.mem_map.mp hs
      rw [← hmap]
      exact assocGet_assocSet_ne fs path q w hq
  · intro hold
    have htr : lookupFS (setFS fs path []) path = some [] :=
      assocGet_assocSet_self fs path []
    constructor
    · rw [htr]
      exact fun h => hold h.symm
    · rw [htr, hupd]
      rw [show lookupFS (setFS fs path (serializeCsv data fns).1) path =
        some (serializeCsv data fns).1 from assocGet_assocSet_self fs path _]
      intro h
      injection h with h₁
      exact serializeCsv_fst_ne_nil data fns h₁.symm

/-- Witness for C6's conditional part: the concrete one-file system, whose
previous content is neither empty nor the new serialization. -/
theorem c6_save_overwrites_in_place_witness :
    lookupFS fsC6 (chars "f.csv") ≠ some [] ∧
    (lookupFS (setFS fsC6 (chars "f.csv") []) (chars "f.csv") ≠
      lookupFS fsC6 (chars "f.csv") ∧
    lookupFS (setFS fsC6 (chars "f.csv") []) (chars "f.csv") ≠
      lookupFS (update_csv_data fsC6 (chars "f.csv") dataC6 fnsC6).1
        (chars "f.csv")) :=
  ⟨by decide,
    (c6_save_overwrites_in_place fsC6 (chars "f.csv") dataC6 fnsC6).2.2.2.2
      (by decide)⟩

/-! ## Round-trip lemmas: lines and cells -/

theorem mem_joinComma (r : List (List Char)) (c : Char) (h : c ∈ joinComma r) :
    c = ',' ∨ ∃ cell ∈ r, c ∈ cell := by
  induction r with
  | nil => simp [joinComma] at h
  | cons cell rest ih =>
    cases rest with
    | nil =>
      simp only [joinComma] at h
      exact Or.inr ⟨cell, List.mem_cons_self _ _, h⟩
    | cons c₂ r₂ =>
      rw [show joinComma (cell :: c₂ :: r₂) = cell ++ ',' :: joinComma (c₂ :: r₂) from rfl]
        at h
      rcases List.mem_append.mp h with h | h
      · exact Or.inr ⟨cell, List.mem_cons_self _ _, h⟩
      · rcases List.mem_cons.mp h with h | h
        · exact Or.inl h
        · rcases ih h with h | ⟨cl, hcl, hc⟩
          · exact Or.inl h
          · exact Or.inr ⟨cl, List.mem_cons_of_mem _ hcl, hc⟩

theorem noQuote_chars (cell : List Char) (h : needsQuote cell = false) :
    ∀ c ∈ cell, c ≠ ',' ∧ c ≠ quoteChar ∧ c ≠ '\r' ∧ c ≠ '\n' := by
  intro c hc
  simp only [needsQuote, List.any_eq_false] at h
  have := h c hc
  simp only [decide_eq_true_eq, not_or] at this
  exact ⟨this.1, this.2.1, this.2.2.1, this.2.2.2⟩

theorem joinComma_noCRLF (r : List (List Char))
    (h : ∀ cell ∈ r, needsQuote cell = false) :
    ∀ c ∈ joinComma r, c ≠ '\n' ∧ c ≠ '\r' := by
  intro c hc
  rcases mem_joinComma r c hc with hc | ⟨cell, hcell, hmem⟩
  · subst hc
    exact ⟨by decide, by decide⟩
  · have hq := noQuote_chars cell (h cell hcell) c hmem
    exact ⟨hq.2.2.2, hq.2.2.1⟩

theorem pySplitLinesAux_append_line (l : List Char)
    (hl : ∀ c ∈ l, c ≠ '\n' ∧ c ≠ '\r') (rest acc : List Char) :
    pySplitLinesAux (l ++ '\r' :: '\n' :: rest) acc =
      (acc.reverse ++ l) :: pySplitLinesAux rest [] := by
  induction l generalizing acc with
  | nil => simp [pySplitLinesAux]
  | cons c cs ih =>
    have hc := hl c (List.mem_cons_self c cs)
    rw [List.cons_append]
    rw [show pySplitLinesAux (c :: (cs ++ '\r' :: '\n' :: rest)) acc =
        pySplitLinesAux (cs ++ '\r' :: '\n' :: rest) (c :: acc) from by
      simp [pySplitLinesAux, hc.1, hc.2]]
    rw [ih (fun c₂ h₂ => hl c₂ (List.mem_cons_of_mem _ h₂)) (c :: acc)]
    simp

theorem pySplitLines_flatten (lines : List (List Char))
    (h : ∀ l ∈ lines, ∀ c ∈ l, c ≠ '\n' ∧ c ≠ '\r') :
    pySplitLines ((lines.map (fun l => l ++ crlf)).flatten) = lines := by
  induction lines with
  | nil => rfl
  | cons l rest ih =>
    simp only [List.map_cons, List.flatten_cons]
    rw [show (l ++ crlf) ++ (rest.map (fun l₂ => l₂ ++ crlf)).flatten =
        l ++ '\r' :: '\n' :: (rest.map (fun l₂ => l₂ ++ crlf)).flatten from by
      simp [crlf]]
    unfold pySplitLines
    rw [pySplitLinesAux_append_line l (h l (List.mem_cons_self _ _)) _ []]
    rw [show ([] : List Char).reverse ++ l = l from by simp]
    rw [show pySplitLinesAux ((rest.map (fun l₂ => l₂ ++ crlf)).flatten) [] =
      pySplitLines ((rest.map (fun l₂ => l₂ ++ crlf)).flatten) from rfl]
    rw [ih (fun l₂ h₂ => h l₂ (List.mem_cons_of_mem _ h₂))]

theorem splitCommaAux_append_cell (cell : List Char) (h : ∀ c ∈ cell, c ≠ ',')
    (rest acc : List Char) :
    splitCommaAux (cell ++ ',' :: rest) acc =
      (acc.reverse ++ cell) :: splitCommaAux rest [] := by
  induction cell generalizing acc with
  | nil => simp [splitCommaAux]
  | cons c cs ih =>
    have hc := h c (List.mem_cons_self c cs)
    rw [List.cons_append]
    rw [show splitCommaAux (c :: (cs ++ ',' :: rest)) acc =
        splitCommaAux (cs ++ ',' :: rest) (c :: acc) from by
      simp [splitCommaAux, hc]]
    rw [ih (fun c₂ h₂ => h c₂ (List.mem_cons_of_mem _ h₂)) (c :: acc)]
    simp

theorem splitCommaAux_no_comma (cell : List Char) (h : ∀ c ∈ cell, c ≠ ',')
    (acc : List Char) : splitCommaAux cell acc = [acc.reverse ++ cell] := by
  induction cell generalizing acc with
  | nil => simp [splitCommaAux]
  | cons c cs ih =>
    have hc := h c (List.mem_cons_self c cs)
    rw [show splitCommaAux (c :: cs) acc = splitCommaAux cs (c :: acc) from by
      simp [splitCommaAux, hc]]
    rw [ih (fun c₂ h₂ => h c₂ (List.mem_cons_of_mem _ h₂)) (c :: acc)]
    simp

theorem splitComma_joinComma (r : List (List Char)) (hr : r ≠ [])
    (h : ∀ cell ∈ r, ∀ c ∈ cell, c ≠ ',') :
    splitComma (joinComma r) = r := by
  induction r with
  | nil => exact absurd rfl hr
  | cons cell rest ih =>
    cases rest with
    | nil =>
      show splitCommaAux (joinComma [cell]) [] = [cell]
      rw [show joinComma [cell] = cell from rfl]
      rw [splitCommaAux_no_comma cell (h cell (List.mem_cons_self _ _)) []]
      simp
    | cons c₂ r₂ =>
      show splitCommaAux (joinComma (cell :: c₂ :: r₂)) [] = cell :: c₂ :: r₂
      rw [show joinComma (cell :: c₂ :: r₂) = cell ++ ',' :: joinComma (c₂ :: r₂) from rfl]
      rw [splitCommaAux_append_cell cell (h cell (List.mem_cons_self _ _)) _ []]
      rw [show ([] : List Char).reverse ++ cell = cell from by simp]
      congr 1
      exact ih (by simp) (fun cl hcl => h cl (List.mem_cons_of_mem _ hcl))

/-! ## Round-trip lemmas: records -/

theorem zipRecord_cons (a : List Char) (hs : List (List Char)) (c : List Char)
    (rs : List (List Char)) :
    zipRecord (a :: hs) (c :: rs) = (some a, PVal.s c) :: zipRecord hs rs := rfl

theorem foldl_dictInsert_fresh (h : List (List Char)) :
    ∀ (r : List (List Char)) (d : Record), h.Nodup →
    (∀ k ∈ h, ∀ kv ∈ d, kv.1 ≠ some k) →
    (List.zip h r).foldl (fun d₂ p => dictInsert d₂ (some p.1) (.s p.2)) d =
      d ++ zipRecord h r := by
  induction h with
  | nil => intro r d _ _; simp [zipRecord]
  | cons a hs ih =>
    intro r d hnodup hfresh
    cases r with
    | nil => simp [zipRecord]
    | cons c rs =>
      simp only [List.zip_cons_cons, List.foldl_cons, zipRecord_cons]
      rw [show dictInsert d (some a) (PVal.s c) = d ++ [(some a, PVal.s c)] from
        assocSet_append_of_not_bound d (some a) (.s c)
          (fun kv hkv => hfresh a (List.mem_cons_self _ _) kv hkv)]
      rw [ih rs (d ++ [(some a, PVal.s c)]) (List.nodup_cons.mp hnodup).2 ?_]
      · simp
      · intro k hk kv hkv
        rcases List.mem_append.mp hkv with hkv | hkv
        · exact hfresh k (List.mem_cons_of_mem _ hk) kv hkv
        · simp only [List.mem_singleton] at hkv
          subst hkv
          intro hak
          injection hak with hak₁
          exact (List.nodup_cons.mp hnodup).1 (hak₁ ▸ hk)

theorem rowToRecord_eq_zipRecord (h r : List (List Char)) (hnodup : h.Nodup)
    (hlen : r.length = h.length) :
    rowToRecord h r = zipRecord h r := by
  unfold rowToRecord
  rw [foldl_dictInsert_fresh h r [] hnodup (by simp)]
  rw [List.nil_append]
  rw [if_neg (by omega), if_neg (by omega)]

theorem dictKeys_zipRecord (h r : List (List Char)) (hlen : r.length = h.length) :
    dictKeys (zipRecord h r) = h.map some := by
  unfold dictKeys zipRecord
  rw [List.map_map]
  rw [show ((fun kv : PKey × PVal => kv.1) ∘
      (fun p : List Char × List Char => (some p.1, PVal.s p.2))) =
    (Option.some ∘ Prod.fst) from rfl]
  rw [← List.map_map]
  rw [List.map_fst_zip h r (by omega)]

theorem zipRecord_keys_bound (h r : List (List Char)) :
    ∀ kv ∈ zipRecord h r, (h.map some).any (fun k => k = kv.1) = true := by
  intro kv hkv
  unfold zipRecord at hkv
  obtain ⟨p, hp, hkvp⟩ := List.mem_map.mp hkv
  subst hkvp
  simp only [List.any_eq_true]
  exact ⟨some p.1, List.mem_map.mpr ⟨p.1, (List.of_mem_zip hp).1, rfl⟩, by simp⟩

theorem zipRecord_cells (h : List (List Char)) :
    ∀ r : List (List Char), h.Nodup → r.length = h.length →
    (h.map some).map (fun k => pvalCell ((dictGet (zipRecord h r) k).getD (.s []))) = r := by
  induction h with
  | nil =>
    intro r _ hlen
    cases r with
    | nil => rfl
    | cons c rs => simp at hlen
  | cons a hs ih =>
    intro r hnodup hlen
    cases r with
    | nil => simp at hlen
    | cons c rs =>
      simp only [List.map_cons]
      have ha : a ∉ hs := (List.nodup_cons.mp hnodup).1
      congr 1
      · rw [zipRecord_cons]
        rw [show dictGet ((some a, PVal.s c) :: zipRecord hs rs) (some a) =
            some (PVal.s c) from by simp [dictGet, assocGet]]
        rfl
      · have hstep : ∀ k ∈ hs.map some,
            pvalCell ((dictGet (zipRecord (a :: hs) (c :: rs)) k).getD (.s [])) =
            pvalCell ((dictGet (zipRecord hs rs) k).getD (.s [])) := by
          intro k hk
          obtain ⟨b, hb, hkb⟩ := List.mem_map.mp hk
          subst hkb
          have hskip : dictGet (zipRecord (a :: hs) (c :: rs)) (some b) =
              dictGet (zipRecord hs rs) (some b) := by
            rw [zipRecord_cons]
            show assocGet ((some a, PVal.s c) :: zipRecord hs rs) (some b) = _
            simp only [assocGet]
            rw [if_neg]
            · rfl
            · intro hab
              injection hab with hab₁
              exact ha (hab₁ ▸ hb)
          rw [hskip]
        rw [List.map_congr_left hstep]
        exact ih rs (List.nodup_cons.mp hnodup).2 (by simpa using hlen)

theorem dict_to_list_zipRecord (h r : List (List Char)) (hnodup : h.Nodup)
    (hlen : r.length = h.length) :
    dict_to_list (zipRecord h r) (h.map some) = .ok r := by
  unfold dict_to_list
  rw [if_neg, zipRecord_cells h r hnodup hlen]
  intro hany
  simp only [List.any_eq_true] at hany
  obtain ⟨kv, hkv, hbad⟩ := hany
  have hbound := zipRecord_keys_bound h r kv hkv
  simp only [decide_eq_true_eq] at hbad
  have hex := List.any_eq_true.mp hbound
  simp only [decide_eq_true_eq] at hex
  exact hbad hex

/-! ## Round-trip lemmas: writer output -/

theorem quoteCell_of_simple (cell : List Char) (h : needsQuote cell = false) :
    quoteCell cell = cell := by
  simp [quoteCell, h]

theorem rowLine_of_simple (r : List (List Char)) (h : ∀ c ∈ r, needsQuote c = false) :
    rowLine r = joinComma r ++ crlf := by
  unfold rowLine
  have hmap : r.map quoteCell = r := by
    rw [List.map_congr_left (fun c hc => quoteCell_of_simple c (h c hc))]
    exact List.map_id r
  rw [hmap]

theorem headerLine_map_some (h : List (List Char)) :
    headerLine (h.map some) = rowLine h := by
  unfold headerLine
  rw [List.map_map]
  rw [show (keyCell ∘ some) = (fun s : List Char => s) from rfl]
  rw [show h.map (fun s : List Char => s) = h from List.map_id h]

theorem csvRowsLoop_canonical (hdr : List (List Char)) (hnodup : hdr.Nodup) :
    ∀ (rows : List (List (List Char))) (w : List Char),
    (∀ r ∈ rows, r.length = hdr.length) →
    (∀ r ∈ rows, ∀ c ∈ r, needsQuote c = false) →
    csvRowsLoop (rows.map (zipRecord hdr)) (hdr.map some) w =
      (w ++ (rows.map rowLine).flatten, Option.none) := by
  intro rows
  induction rows with
  | nil => intro w _ _; simp [csvRowsLoop]
  | cons r rs ih =>
    intro w hlen hsimple
    simp only [List.map_cons]
    unfold csvRowsLoop
    rw [dict_to_list_zipRecord hdr r hnodup (hlen r (List.mem_cons_self _ _))]
    show csvRowsLoop (rs.map (zipRecord hdr)) (hdr.map some) (w ++ rowLine r) =
      (w ++ (rowLine r :: rs.map rowLine).flatten, Option.none)
    rw [ih (w ++ rowLine r) (fun r₂ h₂ => hlen r₂ (List.mem_cons_of_mem _ h₂))
      (fun r₂ h₂ => hsimple r₂ (List.mem_cons_of_mem _ h₂))]
    simp [List.append_assoc]

/-! ## Round-trip lemma: the parse of canonical text -/

theorem parseCsv_canonical (hdr : List (List Char)) (rows : List (List (List Char)))
    (hwf : wfCsv hdr rows) :
    parseCsv (tableText (hdr :: rows)) = rows.map (zipRecord hdr) := by
  obtain ⟨hne, hnodup, hrows, hcell, hlen⟩ := hwf
  have hrne : ∀ r ∈ hdr :: rows, r ≠ [] := by
    intro r hr
    rcases List.mem_cons.mp hr with hr | hr
    · subst hr; exact hne
    · intro hnil
      have := hlen r hr
      rw [hnil] at this
      simp at this
      exact hne (List.eq_nil_of_length_eq_zero this.symm)
  have htab : tableText (hdr :: rows) =
      (((hdr :: rows).map joinComma).map (fun l => l ++ crlf)).flatten := by
    unfold tableText
    rw [List.map_map]
    congr 1
    exact List.map_congr_left (fun r hr => rowLine_of_simple r (hcell r hr).1)
  rw [htab]
  unfold parseCsv
  rw [pySplitLines_flatten ((hdr :: rows).map joinComma) ?nocrlf]
  case nocrlf =>
    intro l hl
    obtain ⟨r, hr, hlr⟩ := List.mem_map.mp hl
    subst hlr
    exact joinComma_noCRLF r (hcell r hr).1
  rw [List.map_map]
  have hrr : ∀ r ∈ hdr :: rows, (rawRow ∘ joinComma) r = r := by
    intro r hr
    show rawRow (joinComma r) = r
    unfold rawRow
    rw [if_neg (by simpa using (hcell r hr).2)]
    refine splitComma_joinComma r (hrne r hr) ?_
    intro cell hcellmem c hc
    exact (noQuote_chars cell ((hcell r hr).1 cell hcellmem) c hc).1
  rw [List.map_congr_left hrr, List.map_id' (hdr :: rows)]
  show (rows.filter (fun r => ¬ r.isEmpty)).map (rowToRecord hdr) =
    rows.map (zipRecord hdr)
  rw [List.filter_eq_self.mpr ?allkept]
  case allkept =>
    intro r hr
    simpa using hrne r (List.mem_cons_of_mem _ hr)
  exact List.map_congr_left (fun r hr => rowToRecord_eq_zipRecord hdr r hnodup (hlen r hr))

/-! ## Claim C9 -/

/-- C9 counterexample: a well-formed source with bare-LF line terminators is
not reproduced byte-for-byte — `save(load(x))` rewrites every terminator as
the writer's CRLF. -/
theorem c9_counterexample :
    load_then_save lfContent = .ok lfContentRewritten ∧
    lfContentRewritten ≠ lfContent := by
  constructor
  · decide
  · decide

/-- C9 amended: `save(load(x))` reproduces `x` byte-for-byte whenever `x` is
in the writer's canonical form — CRLF-terminated lines over a non-empty
header of distinct names, at least one data row, all rows of header width,
no cell needing quoting, and no blank line; for a source with bare-LF
terminators the bytes differ (terminators are rewritten as CRLF). -/
theorem c9_round_trip :
    ∀ (hdr : List (List Char)) (rows : List (List (List Char))),
      wfCsv hdr rows →
      load_then_save (tableText (hdr :: rows)) = .ok (tableText (hdr :: rows)) := by
  intro hdr rows hwf
  obtain ⟨hne, hnodup, hrows, hcell, hlen⟩ := hwf
  unfold load_then_save
  rw [parseCsv_canonical hdr rows ⟨hne, hnodup, hrows, hcell, hlen⟩]
  cases rows with
  | nil => exact absurd rfl hrows
  | cons r₀ rrest =>
    have hkeys : dictKeys (zipRecord hdr r₀) = hdr.map some :=
      dictKeys_zipRecord hdr r₀ (hlen r₀ (List.mem_cons_self _ _))
    have hser : serializeCsv ((r₀ :: rrest).map (zipRecord hdr)) (hdr.map some) =
        (tableText (hdr :: r₀ :: rrest), Option.none) := by
      unfold serializeCsv
      rw [csvRowsLoop_canonical hdr hnodup (r₀ :: rrest) (headerLine (hdr.map some))
        (fun r h => hlen r h)
        (fun r h => (hcell r (List.mem_cons_of_mem _ h)).1)]
      rw [headerLine_map_some]
      rw [show rowLine hdr ++ ((r₀ :: rrest).map rowLine).flatten =
        tableText (hdr :: r₀ :: rrest) from by
        unfold tableText
        simp]
    simp only [List.map_cons]
    show (match serializeCsv (zipRecord hdr r₀ :: rrest.map (zipRecord hdr))
        (dictKeys (zipRecord hdr r₀)) with
      | (_, some err) => Except.error err
      | (written, Option.none) => Except.ok written) =
      Except.ok (tableText (hdr :: r₀ :: rrest))
    rw [hkeys]
    rw [show zipRecord hdr r₀ :: rrest.map (zipRecord hdr) =
      (r₀ :: rrest).map (zipRecord hdr) from by simp]
    rw [hser]

/-- Witness for C9 at a small canonical source. -/
theorem c9_round_trip_witness :
    wfCsv [chars "EpicID", chars "Title"] [[chars "E1", chars "Login"]] ∧
    load_then_save (tableText ([chars "EpicID", chars "Title"] ::
        [[chars "E1", chars "Login"]])) =
      .ok (tableText ([chars "EpicID", chars "Title"] ::
        [[chars "E1", chars "Login"]])) :=
  ⟨by unfold wfCsv; decide,
    c9_round_trip [chars "EpicID", chars "Title"] [[chars "E1", chars "Login"]]
      (by unfold wfCsv; decide)⟩
